import Mathlib

/-!
# Verification of the adb-syncer reconciliation engine

Shallow embedding of the sync engine of `src/core/sync_engine.py`
(class `SyncEngine`), together with the pieces of
`src/core/adb_manager.py` and `src/plugins/base_plugin.py` that it
consumes.

Modelling conventions:

* A Python file-info dict (keys `rel_path`, `size`, `mtime`, and the
  absolute source `full_path` / `full_device_path`) becomes the
  structure `FileRec`; timestamps are integer seconds (`Nat`), and
  Python's float floor-division `mtime // 60` becomes `Nat` division.
* A Python dict built by `{f['rel_path']: f for f in files}` becomes
  `dictGet` (last binding for a key wins) together with `dictKeysList`
  (keys in order of first occurrence, which is Python's dict iteration
  order).  `set(a) | set(b)` iterates in an unspecified order in
  Python; we fix the first-occurrence order of the concatenation.
* Plugin hooks and the caller's conflict callback are plain Lean
  functions.  `if plugin and hasattr(plugin, 'on_conflict')` is
  modelled by an `Option`-valued hook: every `BasePlugin` subclass has
  the attribute, so "a policy is configured" is what the check tests.
* The executor's mutable `stats` dict and its event stream (progress
  callbacks, attempted copies) are made explicit: `runOps` returns the
  final `Stats` together with a trace of `Event`s.  The asynchronous
  `stop_requested` flag is modelled as the Bool value the loop reads
  at each index.
* Exceptions raised by plugin hooks are modelled separately with
  `Except String`: `syncE` mirrors the control flow of `SyncEngine.sync`
  steps 5-9 (collection, comparison, execution, `on_sync_end`) and the
  outer `except ... raise` handler.
-/

/-- One file of an inventory: the dicts built by `_collect_local_files`
and `_collect_device_files` (`rel_path`, `size`, `mtime`, and the
absolute source path: `full_path` for local records, `full_device_path`
for device records). -/
structure FileRec where
  rel_path : String
  size : Nat
  mtime : Nat
  full_path : String
deriving DecidableEq, Repr

/-- `SyncEngine._is_same_file`: same size and same minute-floored
modification time. -/
def isSameFile (local_info device_info : FileRec) : Bool :=
  if local_info.size ≠ device_info.size then false
  else local_info.mtime / 60 = device_info.mtime / 60

/-- `{f['rel_path']: f for f in files}` then `.get(rel)`: the last
record with the given key wins, as in a Python dict comprehension. -/
def dictGet (files : List FileRec) (rel : String) : Option FileRec :=
  files.foldl (fun acc f => if f.rel_path = rel then some f else acc) none

/-- Keys in order of first occurrence: the iteration order of a Python
dict built by a comprehension. -/
def dedupKeepFirst : List String → List String
  | [] => []
  | s :: rest => s :: (dedupKeepFirst rest).filter (fun t => t ≠ s)

/-- Iteration order of `local_dict` / `device_dict`. -/
def dictKeysList (files : List FileRec) : List String :=
  dedupKeepFirst (files.map (fun f => f.rel_path))

/-- Conflict decision strings `'local' | 'device' | 'skip'` returned by
`BasePlugin.on_conflict` or the caller's `conflict_callback`. -/
inductive Decision where
  | dlocal
  | ddevice
  | dskip
deriving DecidableEq, Repr

/-- The two conflict resolvers `_compare_files` may consult: the
configured plugin (whose `on_conflict` always exists, defaulting to
`'skip'` in `BasePlugin`), and the caller-supplied
`conflict_callback`. -/
structure ConflictConfig where
  pluginHook : Option (FileRec → FileRec → Decision)
  callback : Option (String → FileRec → FileRec → Decision)

/-- The decision computation in the bidirectional branch of
`_compare_files`: `decision = 'skip'`, overwritten by
`plugin.on_conflict` when a plugin is configured, else by
`conflict_callback` when supplied. -/
def resolveConflict (cfg : ConflictConfig) (rel : String) (lf df : FileRec) : Decision :=
  match cfg.pluginHook with
  | some h => h lf df
  | none =>
    match cfg.callback with
    | some cb => cb rel lf df
    | none => Decision.dskip

/-- Operation kind strings `'upload' | 'download'`. -/
inductive OpKind where
  | upload
  | download
deriving DecidableEq, Repr

/-- One entry of the `operations` list:
`(op, file_info, target_path)`; `target_path` is the device source
path, populated only for downloads. -/
structure Operation where
  op : OpKind
  file : FileRec
  target : Option String
deriving DecidableEq, Repr

/-- `('upload', lf, None)`. -/
def uploadOp (lf : FileRec) : Operation := ⟨OpKind.upload, lf, none⟩

/-- `('download', df, df['full_device_path'])`. -/
def downloadOp (df : FileRec) : Operation := ⟨OpKind.download, df, some df.full_path⟩

/-- Body of the `local_to_device` loop of `_compare_files` for one
local record `lf` and the device record (if any) under the same key. -/
def pushPath (lf : FileRec) (df? : Option FileRec) : List Operation :=
  match df? with
  | none => [uploadOp lf]
  | some df =>
    if isSameFile lf df then []
    else if lf.mtime > df.mtime then [uploadOp lf]
    else []

/-- Body of the `device_to_local` loop of `_compare_files` for one
device record `df` and the local record (if any) under the same key. -/
def pullPath (lf? : Option FileRec) (df : FileRec) : List Operation :=
  match lf? with
  | none => [downloadOp df]
  | some lf =>
    if isSameFile lf df then []
    else if df.mtime > lf.mtime then [downloadOp df]
    else []

/-- Body of the bidirectional loop of `_compare_files` for one key of
`all_paths`, given the record on each side (if any). -/
def bidiPath (cfg : ConflictConfig) (rel : String) (lf? df? : Option FileRec) :
    List Operation :=
  match lf?, df? with
  | some lf, some df =>
    if isSameFile lf df then []
    else if lf.mtime > df.mtime then [uploadOp lf]
    else if lf.mtime < df.mtime then
      match resolveConflict cfg rel lf df with
      | Decision.dlocal => [uploadOp lf]
      | Decision.ddevice => [downloadOp df]
      | Decision.dskip => []
    else []
  | some lf, none => [uploadOp lf]
  | none, some df => [downloadOp df]
  | none, none => []

/-- The conflict-resolution invocations the bidirectional loop makes
for one key: `(rel_path, lf, df)` exactly when it reaches the
`lf['mtime'] < df['mtime']` branch (where the one resolver call
happens), and nothing otherwise. -/
def bidiInvs (rel : String) (lf? df? : Option FileRec) :
    List (String × FileRec × FileRec) :=
  match lf?, df? with
  | some lf, some df =>
    if isSameFile lf df then []
    else if lf.mtime > df.mtime then []
    else if lf.mtime < df.mtime then [(rel, lf, df)]
    else []
  | _, _ => []

/-- The `direction` pipeline setting: `'local_to_device'`,
`'device_to_local'`, or anything else (the `else` branch of
`_compare_files` — bidirectional). -/
inductive Direction where
  | local_to_device
  | device_to_local
  | bidirectional
deriving DecidableEq, Repr

/-- Key set iterated by the bidirectional branch
(`set(local_dict.keys()) | set(device_dict.keys())`, order fixed as
first occurrence in the concatenation). -/
def allKeys (local_files device_files : List FileRec) : List String :=
  dedupKeepFirst
    (local_files.map (fun f => f.rel_path) ++ device_files.map (fun f => f.rel_path))

/-- One `local_to_device` iteration of `_compare_files` at a key: the
local record under the key (the `none` case is unreachable, the keys
come from the local side) against the device lookup. -/
def pushAt (local_files device_files : List FileRec) (rel : String) : List Operation :=
  match dictGet local_files rel with
  | none => []
  | some lf => pushPath lf (dictGet device_files rel)

/-- One `device_to_local` iteration of `_compare_files` at a key. -/
def pullAt (local_files device_files : List FileRec) (rel : String) : List Operation :=
  match dictGet device_files rel with
  | none => []
  | some df => pullPath (dictGet local_files rel) df

/-- One bidirectional iteration of `_compare_files` at a key. -/
def bidiAt (cfg : ConflictConfig) (local_files device_files : List FileRec)
    (rel : String) : List Operation :=
  bidiPath cfg rel (dictGet local_files rel) (dictGet device_files rel)

/-- The conflict-resolution invocations of one bidirectional iteration
at a key. -/
def bidiInvsAt (local_files device_files : List FileRec) (rel : String) :
    List (String × FileRec × FileRec) :=
  bidiInvs rel (dictGet local_files rel) (dictGet device_files rel)

/-- `SyncEngine._compare_files`: builds the two dicts and walks keys,
emitting operations per the direction. -/
def compareFiles (local_files device_files : List FileRec) (direction : Direction)
    (cfg : ConflictConfig) : List Operation :=
  match direction with
  | Direction.local_to_device =>
    (dictKeysList local_files).flatMap (pushAt local_files device_files)
  | Direction.device_to_local =>
    (dictKeysList device_files).flatMap (pullAt local_files device_files)
  | Direction.bidirectional =>
    (allKeys local_files device_files).flatMap (bidiAt cfg local_files device_files)

/-- The sequence of conflict-resolution invocations `_compare_files`
makes: none in the one-way directions, and one per key reaching the
conflict branch in bidirectional mode. -/
def conflictInvocations (local_files device_files : List FileRec)
    (direction : Direction) : List (String × FileRec × FileRec) :=
  match direction with
  | Direction.bidirectional =>
    (allKeys local_files device_files).flatMap (bidiInvsAt local_files device_files)
  | _ => []

/-- The operation list a single conflict decision is mapped to:
`'local' → upload`, `'device' → download`, `'skip' → nothing`. -/
def decisionToOps (d : Decision) (lf df : FileRec) : List Operation :=
  match d with
  | Decision.dlocal => [uploadOp lf]
  | Decision.ddevice => [downloadOp df]
  | Decision.dskip => []

/-- The `stats` dict of `SyncEngine.sync`:
`{'upload': x, 'download': y, 'skip': z, 'error': w}`. -/
structure Stats where
  upload : Nat
  download : Nat
  skip : Nat
  error : Nat
deriving DecidableEq, Repr

/-- The observable events of the executor loop (step 8 of `sync`): a
progress-callback delivery `(description, index, total)` and the
attempt of the copy for the operation at an index. -/
inductive Event where
  | progress (desc : String) (idx : Nat) (total : Nat)
  | attempt (idx : Nat)
deriving DecidableEq, Repr

/-- The string of an operation kind. -/
def opKindStr (k : OpKind) : String :=
  match k with
  | OpKind.upload => "upload"
  | OpKind.download => "download"

/-- The description passed to the progress callback: the
interpolation of the operation kind and `file_info['rel_path']`. -/
def describeOp (o : Operation) : String :=
  opKindStr o.op ++ " " ++ o.file.rel_path

/-- One iteration's effect on `stats`: on success increment the
counter of the operation's kind, otherwise (`push`/`pull` returned
false, or raised) increment `error`. -/
def applyResult (stats : Stats) (o : Operation) (ok : Bool) : Stats :=
  if ok then
    match o.op with
    | OpKind.upload => ⟨stats.upload + 1, stats.download, stats.skip, stats.error⟩
    | OpKind.download => ⟨stats.upload, stats.download + 1, stats.skip, stats.error⟩
  else ⟨stats.upload, stats.download, stats.skip, stats.error + 1⟩

/-- The executor loop with no cancellation: for each operation, in
order, deliver the progress callback (description, 0-based absolute
index, total), then attempt the copy, whose success is given by
`result` at that index.  Returns the final stats and the event
trace. -/
def runAll (ops : List Operation) (total : Nat) (result : Nat → Bool)
    (start : Nat) (stats : Stats) : Stats × List Event :=
  match ops with
  | [] => (stats, [])
  | o :: rest =>
    let stats' := applyResult stats o (result start)
    let r := runAll rest total result (start + 1) stats'
    (r.1, Event.progress (describeOp o) start total :: Event.attempt start :: r.2)

/-- The executor loop of `SyncEngine.sync` step 8: before each
operation the cooperative flag `stop_requested` is read (`stop idx` is
the value the loop reads at index `idx`); if set, the remaining
operations are abandoned and the stats accumulated so far kept.
Otherwise the progress callback fires and the copy is attempted. -/
def runOps (ops : List Operation) (total : Nat) (stop result : Nat → Bool)
    (start : Nat) (stats : Stats) : Stats × List Event :=
  match ops with
  | [] => (stats, [])
  | o :: rest =>
    if stop start then (stats, [])
    else
      let stats' := applyResult stats o (result start)
      let r := runOps rest total stop result (start + 1) stats'
      (r.1, Event.progress (describeOp o) start total :: Event.attempt start :: r.2)

/-- The indices carried by the progress events of a trace, in trace
order. -/
def progressIndices (tr : List Event) : List Nat :=
  tr.filterMap (fun e =>
    match e with
    | Event.progress _ i _ => some i
    | _ => none)

/-- The event trace the executor produces for a list of operations it
runs to completion, starting at an absolute index: progress then
attempt, per operation, in order. -/
def traceShape (ops : List Operation) (total start : Nat) : List Event :=
  match ops with
  | [] => []
  | o :: rest =>
    Event.progress (describeOp o) start total :: Event.attempt start ::
      traceShape rest total (start + 1)

/-- `os.path.splitext(name)[1]` on a list of characters (for plain
file names, no separators): the suffix from the last dot, unless every
character before that dot is itself a dot. -/
def extOfList (cs : List Char) : List Char :=
  let rcs := cs.reverse
  let after := rcs.takeWhile (fun c => c ≠ '.')
  match rcs.dropWhile (fun c => c ≠ '.') with
  | [] => []
  | _ :: before =>
    if before.any (fun c => c ≠ '.') then '.' :: after.reverse else []

/-- `os.path.splitext(name)[1].lower()`. -/
def extLower (name : String) : String :=
  String.mk ((extOfList name.toList).map Char.toLower)

/-- One parsed line of `AdbManager.list_directory`: name, directory
flag, size, and the timestamp, which is `none` when
`datetime.strptime` failed on the date columns. -/
structure DirEntry where
  name : String
  is_dir : Bool
  size : Nat
  mtime : Option Nat
deriving DecidableEq, Repr

/-- `SyncEngine._collect_device_files` (with a non-fallible plugin
filter hook): walk the shallow listing, drop directories, drop entries
whose timestamp failed to parse, apply the age threshold, the
extension include/exclude filters, then the plugin filter. -/
def collectDeviceFiles (device_path : String) (entries : List DirEntry)
    (include_ext exclude_ext : List String) (threshold : Nat)
    (filterHook : Option (FileRec → Bool)) : List FileRec :=
  match entries with
  | [] => []
  | e :: rest =>
    let tail := collectDeviceFiles device_path rest include_ext exclude_ext threshold filterHook
    if e.is_dir then tail
    else
      match e.mtime with
      | none => tail
      | some mtime =>
        if threshold > 0 ∧ mtime < threshold then tail
        else
          let ext := extLower e.name
          if include_ext ≠ [] ∧ ext ∉ include_ext then tail
          else if exclude_ext ≠ [] ∧ ext ∈ exclude_ext then tail
          else
            let rec_ : FileRec := ⟨e.name, e.size, mtime, device_path ++ "/" ++ e.name⟩
            match filterHook with
            | some h => if h rec_ then rec_ :: tail else tail
            | none => rec_ :: tail

/-- One regular file yielded by the `os.walk` of
`_collect_local_files`, before any filtering: its plain file name
(`file`, from which the extension is computed), the relative and
absolute paths, and the `os.stat` size and mtime. -/
structure LocalCandidate where
  name : String
  rel_path : String
  full_path : String
  mtime : Nat
  size : Nat
deriving DecidableEq, Repr

/-- `SyncEngine._collect_local_files`, with the plugin filter hook
modelled as fallible (`Except String Bool`): the hook call has no
handler around it, so a raised exception propagates out of the
collection. -/
def collectLocalFilesE (cands : List LocalCandidate)
    (include_ext exclude_ext : List String) (threshold : Nat)
    (filterHook : Option (FileRec → Except String Bool)) :
    Except String (List FileRec) :=
  match cands with
  | [] => Except.ok []
  | c :: rest =>
    let tailE := collectLocalFilesE rest include_ext exclude_ext threshold filterHook
    if threshold > 0 ∧ c.mtime < threshold then tailE
    else
      let ext := extLower c.name
      if include_ext ≠ [] ∧ ext ∉ include_ext then tailE
      else if exclude_ext ≠ [] ∧ ext ∈ exclude_ext then tailE
      else
        let r : FileRec := ⟨c.rel_path, c.size, c.mtime, c.full_path⟩
        match filterHook with
        | some h =>
          match h r with
          | Except.error e => Except.error e
          | Except.ok b =>
            if b then tailE.map (fun t => r :: t) else tailE
        | none => tailE.map (fun t => r :: t)

/-- `SyncEngine._collect_device_files` with a fallible plugin filter
hook (same hook object as for the local side). -/
def collectDeviceFilesE (device_path : String) (entries : List DirEntry)
    (include_ext exclude_ext : List String) (threshold : Nat)
    (filterHook : Option (FileRec → Except String Bool)) :
    Except String (List FileRec) :=
  match entries with
  | [] => Except.ok []
  | e :: rest =>
    let tailE := collectDeviceFilesE device_path rest include_ext exclude_ext threshold filterHook
    if e.is_dir then tailE
    else
      match e.mtime with
      | none => tailE
      | some mtime =>
        if threshold > 0 ∧ mtime < threshold then tailE
        else
          let ext := extLower e.name
          if include_ext ≠ [] ∧ ext ∉ include_ext then tailE
          else if exclude_ext ≠ [] ∧ ext ∈ exclude_ext then tailE
          else
            let r : FileRec := ⟨e.name, e.size, mtime, device_path ++ "/" ++ e.name⟩
            match filterHook with
            | some h =>
              match h r with
              | Except.error e => Except.error e
              | Except.ok b =>
                if b then tailE.map (fun t => r :: t) else tailE
            | none => tailE.map (fun t => r :: t)

/-- The two conflict resolvers with the plugin hook and the callback
modelled as fallible. -/
structure ConflictConfigE where
  pluginHook : Option (FileRec → FileRec → Except String Decision)
  callback : Option (String → FileRec → FileRec → Except String Decision)

/-- Fallible version of `resolveConflict`: an exception in the plugin
`on_conflict` hook or the callback propagates. -/
def resolveConflictE (cfg : ConflictConfigE) (rel : String) (lf df : FileRec) :
    Except String Decision :=
  match cfg.pluginHook with
  | some h => h lf df
  | none =>
    match cfg.callback with
    | some cb => cb rel lf df
    | none => Except.ok Decision.dskip

/-- Fallible version of `bidiPath`. -/
def bidiPathE (cfg : ConflictConfigE) (rel : String) (lf? df? : Option FileRec) :
    Except String (List Operation) :=
  match lf?, df? with
  | some lf, some df =>
    if isSameFile lf df then Except.ok []
    else if lf.mtime > df.mtime then Except.ok [uploadOp lf]
    else if lf.mtime < df.mtime then
      (resolveConflictE cfg rel lf df).map (fun d => decisionToOps d lf df)
    else Except.ok []
  | some lf, none => Except.ok [uploadOp lf]
  | none, some df => Except.ok [downloadOp df]
  | none, none => Except.ok []

/-- The bidirectional loop over the union key set, fallible. -/
def bidiAllE (cfg : ConflictConfigE) (local_files device_files : List FileRec) :
    List String → Except String (List Operation)
  | [] => Except.ok []
  | k :: rest =>
    match bidiPathE cfg k (dictGet local_files k) (dictGet device_files k) with
    | Except.error e => Except.error e
    | Except.ok ops =>
      match bidiAllE cfg local_files device_files rest with
      | Except.error e => Except.error e
      | Except.ok more => Except.ok (ops ++ more)

/-- `SyncEngine._compare_files` with fallible conflict resolvers: the
one-way directions consult no resolver and cannot fail. -/
def compareFilesE (local_files device_files : List FileRec) (direction : Direction)
    (cfg : ConflictConfigE) : Except String (List Operation) :=
  match direction with
  | Direction.local_to_device =>
    Except.ok ((dictKeysList local_files).flatMap (pushAt local_files device_files))
  | Direction.device_to_local =>
    Except.ok ((dictKeysList device_files).flatMap (pullAt local_files device_files))
  | Direction.bidirectional =>
    bidiAllE cfg local_files device_files (allKeys local_files device_files)

/-- The inputs of one run of `SyncEngine.sync` after path resolution
and validation: the raw candidates of both sides, the filter
parameters, the direction, the (fallible) plugin hooks, and the
executor's environment.  `on_sync_end` receives the stats and may
raise. -/
structure SyncRun where
  localCands : List LocalCandidate
  deviceEntries : List DirEntry
  device_path : String
  include_ext : List String
  exclude_ext : List String
  threshold : Nat
  direction : Direction
  filterHook : Option (FileRec → Except String Bool)
  conflictCfg : ConflictConfigE
  endHook : Option (Stats → Except String Unit)
  stop : Nat → Bool
  result : Nat → Bool

/-- Steps 5-9 of `SyncEngine.sync` with exception flow made explicit:
collection, comparison and the `on_sync_end` hook run inside the
`try` block, and any exception raised there reaches the outer
handler, which logs it, notifies `on_sync_error`, and re-raises — so
the caller observes the error and receives no stats.  There is no
handler that substitutes a hook default. -/
def syncE (r : SyncRun) : Except String Stats :=
  match collectLocalFilesE r.localCands r.include_ext r.exclude_ext r.threshold r.filterHook with
  | Except.error e => Except.error e
  | Except.ok lfs =>
    match collectDeviceFilesE r.device_path r.deviceEntries r.include_ext r.exclude_ext
        r.threshold r.filterHook with
    | Except.error e => Except.error e
    | Except.ok dfs =>
      match compareFilesE lfs dfs r.direction r.conflictCfg with
      | Except.error e => Except.error e
      | Except.ok ops =>
        let stats := (runOps ops ops.length r.stop r.result 0 ⟨0, 0, 0, 0⟩).1
        match r.endHook with
        | some h =>
          match h stats with
          | Except.error e => Except.error e
          | Except.ok _ => Except.ok stats
        | none => Except.ok stats

/-! ## Dictionary and key-list lemmas -/

theorem foldl_dict_step (rel : String) (files : List FileRec) (acc : Option FileRec) :
    files.foldl (fun a f => if f.rel_path = rel then some f else a) acc =
      (files.foldl (fun a f => if f.rel_path = rel then some f else a) none).elim acc some := by
  induction files generalizing acc with
  | nil => rfl
  | cons f rest ih =>
    simp only [List.foldl_cons]
    rw [ih (if f.rel_path = rel then some f else acc),
      ih (if f.rel_path = rel then some f else none)]
    cases hr : rest.foldl (fun a g => if g.rel_path = rel then some g else a) none with
    | none => by_cases h : f.rel_path = rel <;> simp [h]
    | some g => simp

theorem dictGet_cons (f : FileRec) (rest : List FileRec) (rel : String) :
    dictGet (f :: rest) rel =
      (dictGet rest rel).elim (if f.rel_path = rel then some f else none) some := by
  have h := foldl_dict_step rel rest (if f.rel_path = rel then some f else none)
  simp only [dictGet, List.foldl_cons]
  exact h

theorem dictGet_some_rel {files : List FileRec} {rel : String} {f : FileRec}
    (h : dictGet files rel = some f) : f.rel_path = rel := by
  induction files with
  | nil => simp [dictGet] at h
  | cons g rest ih =>
    rw [dictGet_cons] at h
    cases hr : dictGet rest rel with
    | some k =>
      rw [hr] at h
      simp only [Option.elim, Option.some.injEq] at h
      subst h
      exact ih hr
    | none =>
      rw [hr] at h
      simp only [Option.elim] at h
      by_cases hg : g.rel_path = rel
      · rw [if_pos hg] at h
        simp only [Option.some.injEq] at h
        subst h
        exact hg
      · rw [if_neg hg] at h
        simp at h

theorem dictGet_isSome_iff (files : List FileRec) (rel : String) :
    (dictGet files rel).isSome ↔ rel ∈ files.map (fun f => f.rel_path) := by
  induction files with
  | nil => simp [dictGet]
  | cons g rest ih =>
    rw [dictGet_cons]
    cases hr : dictGet rest rel with
    | some k =>
      rw [hr] at ih
      simp only [Option.isSome_some, true_iff] at ih
      simp [Option.elim, ih]
    | none =>
      rw [hr] at ih
      simp only [Option.isSome_none, Bool.false_eq_true, false_iff] at ih
      by_cases hg : g.rel_path = rel
      · simp [Option.elim, hg]
      · simp only [Option.elim, List.map_cons, List.mem_cons]
        rw [if_neg hg]
        simp only [Option.isSome_none, Bool.false_eq_true, false_iff]
        intro hc
        rcases hc with hc | hc
        · exact hg hc.symm
        · exact ih hc

theorem mem_dedupKeepFirst (s : String) (l : List String) :
    s ∈ dedupKeepFirst l ↔ s ∈ l := by
  induction l with
  | nil => simp [dedupKeepFirst]
  | cons a rest ih =>
    simp only [dedupKeepFirst, List.mem_cons, List.mem_filter]
    by_cases h : s = a
    · simp [h]
    · simp [h, ih]

theorem nodup_dedupKeepFirst (l : List String) : (dedupKeepFirst l).Nodup := by
  induction l with
  | nil => simp [dedupKeepFirst]
  | cons a rest ih =>
    simp only [dedupKeepFirst]
    rw [List.nodup_cons]
    refine ⟨?_, List.Nodup.filter _ ih⟩
    intro hmem
    rw [List.mem_filter] at hmem
    have := hmem.2
    simp at this

theorem nodup_dictKeysList (files : List FileRec) : (dictKeysList files).Nodup :=
  nodup_dedupKeepFirst _

theorem nodup_allKeys (l d : List FileRec) : (allKeys l d).Nodup :=
  nodup_dedupKeepFirst _

theorem mem_dictKeysList_iff (files : List FileRec) (rel : String) :
    rel ∈ dictKeysList files ↔ (dictGet files rel).isSome := by
  rw [dictKeysList, mem_dedupKeepFirst, dictGet_isSome_iff]

theorem mem_allKeys_iff (l d : List FileRec) (rel : String) :
    rel ∈ allKeys l d ↔ (dictGet l rel).isSome ∨ (dictGet d rel).isSome := by
  rw [allKeys, mem_dedupKeepFirst, List.mem_append, dictGet_isSome_iff, dictGet_isSome_iff]

/-! ## Per-key decomposition of `compareFiles` -/

theorem filter_flatMap_key {β : Type} (key : β → String) (rel : String)
    (g : String → List β) (keys : List String) (hnd : keys.Nodup)
    (hg : ∀ p, ∀ b ∈ g p, key b = p) :
    (keys.flatMap g).filter (fun b => key b == rel) =
      if rel ∈ keys then g rel else [] := by
  induction keys with
  | nil => simp
  | cons k rest ih =>
    rw [List.nodup_cons] at hnd
    rw [List.flatMap_cons, List.filter_append, ih hnd.2]
    by_cases hk : rel = k
    · subst hk
      have h1 : (g rel).filter (fun b => key b == rel) = g rel :=
        List.filter_eq_self.mpr (fun b hb => by simp [hg rel b hb])
      rw [h1]
      simp [hnd.1]
    · have h1 : (g k).filter (fun b => key b == rel) = [] :=
        List.filter_eq_nil_iff.mpr (fun b hb hbeq => by
          rw [hg k b hb] at hbeq
          exact hk (beq_iff_eq.mp hbeq).symm)
      rw [h1]
      simp [List.mem_cons, hk]

theorem mem_pushPath_file {lf : FileRec} {df? : Option FileRec} {op : Operation}
    (h : op ∈ pushPath lf df?) : op.file = lf := by
  cases df? with
  | none =>
    simp only [pushPath, List.mem_singleton] at h
    subst h
    rfl
  | some df =>
    simp only [pushPath] at h
    split at h
    · simp at h
    · split at h
      · simp only [List.mem_singleton] at h
        subst h
        rfl
      · simp at h

theorem mem_pullPath_file {lf? : Option FileRec} {df : FileRec} {op : Operation}
    (h : op ∈ pullPath lf? df) : op.file = df := by
  cases lf? with
  | none =>
    simp only [pullPath, List.mem_singleton] at h
    subst h
    rfl
  | some lf =>
    simp only [pullPath] at h
    split at h
    · simp at h
    · split at h
      · simp only [List.mem_singleton] at h
        subst h
        rfl
      · simp at h

theorem mem_bidiPath_file {cfg : ConflictConfig} {rel : String}
    {lf? df? : Option FileRec} {op : Operation}
    (h : op ∈ bidiPath cfg rel lf? df?) :
    (∃ lf, lf? = some lf ∧ op.file = lf) ∨ (∃ df, df? = some df ∧ op.file = df) := by
  cases lf? with
  | none =>
    cases df? with
    | none => simp [bidiPath] at h
    | some df =>
      simp only [bidiPath, List.mem_singleton] at h
      subst h
      exact Or.inr ⟨df, rfl, rfl⟩
  | some lf =>
    cases df? with
    | none =>
      simp only [bidiPath, List.mem_singleton] at h
      subst h
      exact Or.inl ⟨lf, rfl, rfl⟩
    | some df =>
      simp only [bidiPath] at h
      split at h
      · simp at h
      · split at h
        · simp only [List.mem_singleton] at h
          subst h
          exact Or.inl ⟨lf, rfl, rfl⟩
        · split at h
          · split at h
            · simp only [List.mem_singleton] at h
              subst h
              exact Or.inl ⟨lf, rfl, rfl⟩
            · simp only [List.mem_singleton] at h
              subst h
              exact Or.inr ⟨df, rfl, rfl⟩
            · simp at h
          · simp at h

theorem mem_pushAt_rel {l d : List FileRec} {p : String} {op : Operation}
    (h : op ∈ pushAt l d p) : op.file.rel_path = p := by
  unfold pushAt at h
  cases hl : dictGet l p with
  | none => rw [hl] at h; simp at h
  | some lf =>
    rw [hl] at h
    rw [mem_pushPath_file h]
    exact dictGet_some_rel hl

theorem mem_pullAt_rel {l d : List FileRec} {p : String} {op : Operation}
    (h : op ∈ pullAt l d p) : op.file.rel_path = p := by
  unfold pullAt at h
  cases hd : dictGet d p with
  | none => rw [hd] at h; simp at h
  | some df =>
    rw [hd] at h
    rw [mem_pullPath_file h]
    exact dictGet_some_rel hd

theorem mem_bidiAt_rel {cfg : ConflictConfig} {l d : List FileRec} {p : String}
    {op : Operation} (h : op ∈ bidiAt cfg l d p) : op.file.rel_path = p := by
  unfold bidiAt at h
  rcases mem_bidiPath_file h with ⟨lf, hlf, hfile⟩ | ⟨df, hdf, hfile⟩
  · rw [hfile]; exact dictGet_some_rel hlf
  · rw [hfile]; exact dictGet_some_rel hdf

theorem mem_bidiInvsAt_key {l d : List FileRec} {p : String}
    {x : String × FileRec × FileRec} (h : x ∈ bidiInvsAt l d p) : x.1 = p := by
  unfold bidiInvsAt at h
  cases hl : dictGet l p with
  | none => rw [hl] at h; simp [bidiInvs] at h
  | some lf =>
    cases hd : dictGet d p with
    | none => rw [hl, hd] at h; simp [bidiInvs] at h
    | some df =>
      rw [hl, hd] at h
      simp only [bidiInvs] at h
      split at h
      · simp at h
      · split at h
        · simp at h
        · split at h
          · simp only [List.mem_singleton] at h
            subst h
            rfl
          · simp at h

/-- Filter predicate selecting the operations of one relative path. -/
def byRel (rel : String) : Operation → Bool := fun o => o.file.rel_path == rel

theorem compareFiles_filter_push (l d : List FileRec) (cfg : ConflictConfig)
    (rel : String) :
    (compareFiles l d Direction.local_to_device cfg).filter (byRel rel) =
      pushAt l d rel := by
  show ((dictKeysList l).flatMap (pushAt l d)).filter (fun o => o.file.rel_path == rel) = _
  rw [filter_flatMap_key (fun o => o.file.rel_path) rel (pushAt l d) _
    (nodup_dictKeysList l) (fun p op h => mem_pushAt_rel h)]
  by_cases hm : rel ∈ dictKeysList l
  · rw [if_pos hm]
  · rw [if_neg hm]
    rw [mem_dictKeysList_iff] at hm
    have hnone : dictGet l rel = none := Option.not_isSome_iff_eq_none.mp hm
    unfold pushAt
    rw [hnone]

theorem compareFiles_filter_pull (l d : List FileRec) (cfg : ConflictConfig)
    (rel : String) :
    (compareFiles l d Direction.device_to_local cfg).filter (byRel rel) =
      pullAt l d rel := by
  show ((dictKeysList d).flatMap (pullAt l d)).filter (fun o => o.file.rel_path == rel) = _
  rw [filter_flatMap_key (fun o => o.file.rel_path) rel (pullAt l d) _
    (nodup_dictKeysList d) (fun p op h => mem_pullAt_rel h)]
  by_cases hm : rel ∈ dictKeysList d
  · rw [if_pos hm]
  · rw [if_neg hm]
    rw [mem_dictKeysList_iff] at hm
    have hnone : dictGet d rel = none := Option.not_isSome_iff_eq_none.mp hm
    unfold pullAt
    rw [hnone]

theorem compareFiles_filter_bidi (l d : List FileRec) (cfg : ConflictConfig)
    (rel : String) :
    (compareFiles l d Direction.bidirectional cfg).filter (byRel rel) =
      bidiAt cfg l d rel := by
  show ((allKeys l d).flatMap (bidiAt cfg l d)).filter (fun o => o.file.rel_path == rel) = _
  rw [filter_flatMap_key (fun o => o.file.rel_path) rel (bidiAt cfg l d) _
    (nodup_allKeys l d) (fun p op h => mem_bidiAt_rel h)]
  by_cases hm : rel ∈ allKeys l d
  · rw [if_pos hm]
  · rw [if_neg hm]
    rw [mem_allKeys_iff] at hm
    push_neg at hm
    have hl : dictGet l rel = none := Option.not_isSome_iff_eq_none.mp hm.1
    have hd : dictGet d rel = none := Option.not_isSome_iff_eq_none.mp hm.2
    unfold bidiAt
    rw [hl, hd]
    rfl

theorem conflictInvocations_filter_bidi (l d : List FileRec) (rel : String) :
    (conflictInvocations l d Direction.bidirectional).filter (fun x => x.1 == rel) =
      bidiInvsAt l d rel := by
  show ((allKeys l d).flatMap (bidiInvsAt l d)).filter (fun x => x.1 == rel) = _
  rw [filter_flatMap_key (fun x => x.1) rel (bidiInvsAt l d) _
    (nodup_allKeys l d) (fun p x h => mem_bidiInvsAt_key h)]
  by_cases hm : rel ∈ allKeys l d
  · rw [if_pos hm]
  · rw [if_neg hm]
    rw [mem_allKeys_iff] at hm
    push_neg at hm
    have hl : dictGet l rel = none := Option.not_isSome_iff_eq_none.mp hm.1
    have hd : dictGet d rel = none := Option.not_isSome_iff_eq_none.mp hm.2
    unfold bidiInvsAt
    rw [hl, hd]
    rfl

/-! ## Equality and case lemmas -/

theorem isSameFile_iff (lf df : FileRec) :
    isSameFile lf df = true ↔ lf.size = df.size ∧ lf.mtime / 60 = df.mtime / 60 := by
  unfold isSameFile
  by_cases h : lf.size = df.size <;> simp [h]

theorem isSameFile_symm (lf df : FileRec) : isSameFile lf df = isSameFile df lf := by
  by_cases hb : isSameFile lf df = true
  · rw [hb]
    have h := (isSameFile_iff lf df).mp hb
    exact ((isSameFile_iff df lf).mpr ⟨h.1.symm, h.2.symm⟩).symm
  · have hb' : ¬ isSameFile df lf = true := fun hc =>
      hb ((isSameFile_iff lf df).mpr
        ⟨((isSameFile_iff df lf).mp hc).1.symm, ((isSameFile_iff df lf).mp hc).2.symm⟩)
    rw [Bool.not_eq_true] at hb hb'
    rw [hb, hb']

theorem isSameFile_of_copy {src dst : FileRec} (hsize : dst.size = src.size)
    (hmin : dst.mtime / 60 = src.mtime / 60) : isSameFile src dst = true :=
  (isSameFile_iff src dst).mpr ⟨hsize.symm, hmin.symm⟩

theorem isSameFile_false_of_minute {lf df : FileRec}
    (h : lf.mtime / 60 ≠ df.mtime / 60) : isSameFile lf df = false := by
  by_cases hs : lf.size = df.size <;> simp [isSameFile, hs, h]

theorem mem_pushPath_eq {lf : FileRec} {df? : Option FileRec} {op : Operation}
    (h : op ∈ pushPath lf df?) : op = uploadOp lf := by
  cases df? with
  | none => simpa [pushPath] using h
  | some df =>
    simp only [pushPath] at h
    split at h
    · simp at h
    · split at h
      · simpa using h
      · simp at h

theorem mem_pullPath_eq {lf? : Option FileRec} {df : FileRec} {op : Operation}
    (h : op ∈ pullPath lf? df) : op = downloadOp df := by
  cases lf? with
  | none => simpa [pullPath] using h
  | some lf =>
    simp only [pullPath] at h
    split at h
    · simp at h
    · split at h
      · simpa using h
      · simp at h

theorem pushPath_cases (lf : FileRec) (df? : Option FileRec) :
    pushPath lf df? = [] ∨ pushPath lf df? = [uploadOp lf] := by
  cases df? with
  | none => exact Or.inr rfl
  | some df =>
    simp only [pushPath]
    split
    · exact Or.inl rfl
    · split
      · exact Or.inr rfl
      · exact Or.inl rfl

theorem pullPath_cases (lf? : Option FileRec) (df : FileRec) :
    pullPath lf? df = [] ∨ pullPath lf? df = [downloadOp df] := by
  cases lf? with
  | none => exact Or.inr rfl
  | some lf =>
    simp only [pullPath]
    split
    · exact Or.inl rfl
    · split
      · exact Or.inr rfl
      · exact Or.inl rfl

theorem pushAt_cases (l d : List FileRec) (k : String) :
    pushAt l d k = [] ∨
      ∃ lf, dictGet l k = some lf ∧ pushAt l d k = [uploadOp lf] := by
  unfold pushAt
  cases hl : dictGet l k with
  | none => exact Or.inl rfl
  | some lf =>
    rcases pushPath_cases lf (dictGet d k) with h | h
    · exact Or.inl h
    · exact Or.inr ⟨lf, rfl, h⟩

theorem pullAt_cases (l d : List FileRec) (k : String) :
    pullAt l d k = [] ∨
      ∃ df, dictGet d k = some df ∧ pullAt l d k = [downloadOp df] := by
  unfold pullAt
  cases hd : dictGet d k with
  | none => exact Or.inl rfl
  | some df =>
    rcases pullPath_cases (dictGet l k) df with h | h
    · exact Or.inl h
    · exact Or.inr ⟨df, rfl, h⟩

theorem bidiPath_cases (cfg : ConflictConfig) (rel : String) (lf? df? : Option FileRec) :
    bidiPath cfg rel lf? df? = [] ∨
      (∃ lf, lf? = some lf ∧ bidiPath cfg rel lf? df? = [uploadOp lf]) ∨
      (∃ df, df? = some df ∧ bidiPath cfg rel lf? df? = [downloadOp df]) := by
  cases lf? with
  | none =>
    cases df? with
    | none => exact Or.inl rfl
    | some df => exact Or.inr (Or.inr ⟨df, rfl, rfl⟩)
  | some lf =>
    cases df? with
    | none => exact Or.inr (Or.inl ⟨lf, rfl, rfl⟩)
    | some df =>
      simp only [bidiPath]
      split
      · exact Or.inl rfl
      · split
        · exact Or.inr (Or.inl ⟨lf, rfl, rfl⟩)
        · split
          · split
            · exact Or.inr (Or.inl ⟨lf, rfl, rfl⟩)
            · exact Or.inr (Or.inr ⟨df, rfl, rfl⟩)
            · exact Or.inl rfl
          · exact Or.inl rfl

theorem bidiAt_cases (cfg : ConflictConfig) (l d : List FileRec) (k : String) :
    bidiAt cfg l d k = [] ∨
      (∃ lf, dictGet l k = some lf ∧ bidiAt cfg l d k = [uploadOp lf]) ∨
      (∃ df, dictGet d k = some df ∧ bidiAt cfg l d k = [downloadOp df]) := by
  unfold bidiAt
  rcases bidiPath_cases cfg k (dictGet l k) (dictGet d k) with h | ⟨lf, hlf, h⟩ | ⟨df, hdf, h⟩
  · exact Or.inl h
  · exact Or.inr (Or.inl ⟨lf, hlf, h⟩)
  · exact Or.inr (Or.inr ⟨df, hdf, h⟩)

/-! ## Claims -/

/-- C2: `_is_same_file(local, remote)` returns true iff the sizes are
equal and the minute-floored (`// 60`) timestamps are equal; two
equal-size records 59 seconds apart inside one floored minute are
judged identical, and two whose timestamps cross a floored-minute
boundary are judged different. -/
theorem claim_is_same_minute_granularity :
    (∀ lf df : FileRec, isSameFile lf df = true ↔
      lf.size = df.size ∧ lf.mtime / 60 = df.mtime / 60) ∧
    isSameFile ⟨"a", 5, 60, "p"⟩ ⟨"a", 5, 119, "q"⟩ = true ∧
    isSameFile ⟨"a", 5, 59, "p"⟩ ⟨"a", 5, 120, "q"⟩ = false ∧
    isSameFile ⟨"a", 5, 119, "p"⟩ ⟨"a", 5, 120, "q"⟩ = false :=
  ⟨isSameFile_iff, by decide, by decide, by decide⟩

/-- C4: in `local_to_device` direction, for a key present locally —
absent remotely gives exactly one upload; present both and same gives
nothing; present both, different, local strictly newer gives exactly
one upload; present both, different, remote newer-or-equal gives
nothing; and a key absent locally contributes no operation. -/
theorem claim_push_direction_rules (l d : List FileRec) (cfg : ConflictConfig)
    (rel : String) :
    (∀ lf, dictGet l rel = some lf → dictGet d rel = none →
      (compareFiles l d Direction.local_to_device cfg).filter (byRel rel) =
        [uploadOp lf]) ∧
    (∀ lf df, dictGet l rel = some lf → dictGet d rel = some df →
      isSameFile lf df = true →
      (compareFiles l d Direction.local_to_device cfg).filter (byRel rel) = []) ∧
    (∀ lf df, dictGet l rel = some lf → dictGet d rel = some df →
      isSameFile lf df = false → df.mtime < lf.mtime →
      (compareFiles l d Direction.local_to_device cfg).filter (byRel rel) =
        [uploadOp lf]) ∧
    (∀ lf df, dictGet l rel = some lf → dictGet d rel = some df →
      isSameFile lf df = false → lf.mtime ≤ df.mtime →
      (compareFiles l d Direction.local_to_device cfg).filter (byRel rel) = []) ∧
    (dictGet l rel = none →
      (compareFiles l d Direction.local_to_device cfg).filter (byRel rel) = []) := by
  simp only [compareFiles_filter_push]
  refine ⟨?_, ?_, ?_, ?_, ?_⟩
  · intro lf hl hd
    simp [pushAt, hl, hd, pushPath]
  · intro lf df hl hd hsame
    simp [pushAt, hl, hd, pushPath, hsame]
  · intro lf df hl hd hsame hnew
    simp [pushAt, hl, hd, pushPath, hsame, hnew]
  · intro lf df hl hd hsame hle
    simp [pushAt, hl, hd, pushPath, hsame, Nat.not_lt.mpr hle]
  · intro hl
    simp [pushAt, hl]

/-- Witness for C4 at concrete inventories: a file present only
locally is pushed exactly once. -/
theorem claim_push_direction_rules_witness :
    (compareFiles [⟨"a", 1, 100, "la"⟩] [] Direction.local_to_device
        ⟨none, none⟩).filter (byRel "a") = [uploadOp ⟨"a", 1, 100, "la"⟩] :=
  (claim_push_direction_rules [⟨"a", 1, 100, "la"⟩] [] ⟨none, none⟩ "a").1
    ⟨"a", 1, 100, "la"⟩ (by decide) (by decide)

/-- C1: in bidirectional mode, a key present on both sides whose
records differ in minute-floored mtime and whose remote record is
strictly newer triggers exactly one conflict-resolution invocation;
the decision comes from the plugin hook when a policy is configured,
else the caller's callback, else `'skip'`; and the key's operations
are exactly the decision's mapping (`local → upload`,
`device → download`, `skip → nothing`). -/
theorem claim_bidirectional_conflict (l d : List FileRec) (cfg : ConflictConfig)
    (rel : String) (lf df : FileRec)
    (hl : dictGet l rel = some lf) (hd : dictGet d rel = some df)
    (hmin : lf.mtime / 60 ≠ df.mtime / 60) (hnew : lf.mtime < df.mtime) :
    (conflictInvocations l d Direction.bidirectional).filter (fun x => x.1 == rel) =
      [(rel, lf, df)] ∧
    (compareFiles l d Direction.bidirectional cfg).filter (byRel rel) =
      decisionToOps (resolveConflict cfg rel lf df) lf df ∧
    (∀ h, cfg.pluginHook = some h → resolveConflict cfg rel lf df = h lf df) ∧
    (∀ cb, cfg.pluginHook = none → cfg.callback = some cb →
      resolveConflict cfg rel lf df = cb rel lf df) ∧
    (cfg.pluginHook = none → cfg.callback = none →
      resolveConflict cfg rel lf df = Decision.dskip) := by
  have hsame : isSameFile lf df = false := isSameFile_false_of_minute hmin
  have hngt : ¬ df.mtime < lf.mtime := Nat.lt_asymm hnew
  refine ⟨?_, ?_, ?_, ?_, ?_⟩
  · rw [conflictInvocations_filter_bidi]
    simp [bidiInvsAt, bidiInvs, hl, hd, hsame, hnew, hngt]
  · rw [compareFiles_filter_bidi]
    simp only [bidiAt, bidiPath, hl, hd, hsame, Bool.false_eq_true, if_false,
      gt_iff_lt, hngt, hnew, if_true, if_neg, if_pos]
    cases resolveConflict cfg rel lf df <;> rfl
  · intro h hp
    simp [resolveConflict, hp]
  · intro cb hp hc
    simp [resolveConflict, hp, hc]
  · intro hp hc
    simp [resolveConflict, hp, hc]

/-- Witness for C1: with no policy and no callback the conflict is
resolved to `'skip'` and the key produces no operation, while exactly
one invocation is recorded. -/
theorem claim_bidirectional_conflict_witness :
    (conflictInvocations [⟨"a", 1, 0, "la"⟩] [⟨"a", 2, 120, "da"⟩]
        Direction.bidirectional).filter (fun x => x.1 == "a") =
      [("a", ⟨"a", 1, 0, "la"⟩, ⟨"a", 2, 120, "da"⟩)] ∧
    (compareFiles [⟨"a", 1, 0, "la"⟩] [⟨"a", 2, 120, "da"⟩]
        Direction.bidirectional ⟨none, none⟩).filter (byRel "a") =
      decisionToOps
        (resolveConflict ⟨none, none⟩ "a" ⟨"a", 1, 0, "la"⟩ ⟨"a", 2, 120, "da"⟩)
        ⟨"a", 1, 0, "la"⟩ ⟨"a", 2, 120, "da"⟩ ∧
    (∀ h, (⟨none, none⟩ : ConflictConfig).pluginHook = some h →
      resolveConflict ⟨none, none⟩ "a" ⟨"a", 1, 0, "la"⟩ ⟨"a", 2, 120, "da"⟩ =
        h ⟨"a", 1, 0, "la"⟩ ⟨"a", 2, 120, "da"⟩) ∧
    (∀ cb, (⟨none, none⟩ : ConflictConfig).pluginHook = none →
      (⟨none, none⟩ : ConflictConfig).callback = some cb →
      resolveConflict ⟨none, none⟩ "a" ⟨"a", 1, 0, "la"⟩ ⟨"a", 2, 120, "da"⟩ =
        cb "a" ⟨"a", 1, 0, "la"⟩ ⟨"a", 2, 120, "da"⟩) ∧
    ((⟨none, none⟩ : ConflictConfig).pluginHook = none →
      (⟨none, none⟩ : ConflictConfig).callback = none →
      resolveConflict ⟨none, none⟩ "a" ⟨"a", 1, 0, "la"⟩ ⟨"a", 2, 120, "da"⟩ =
        Decision.dskip) :=
  claim_bidirectional_conflict [⟨"a", 1, 0, "la"⟩] [⟨"a", 2, 120, "da"⟩]
    ⟨none, none⟩ "a" ⟨"a", 1, 0, "la"⟩ ⟨"a", 2, 120, "da"⟩
    (by decide) (by decide) (by decide) (by decide)

/-- C10: in bidirectional mode, a key present on both sides with
exactly equal mtimes but unequal sizes falls through every branch:
no operation is emitted and no conflict resolver is invoked. -/
theorem claim_equal_mtime_diff_size_skip (l d : List FileRec) (cfg : ConflictConfig)
    (rel : String) (lf df : FileRec)
    (hl : dictGet l rel = some lf) (hd : dictGet d rel = some df)
    (hm : lf.mtime = df.mtime) (hs : lf.size ≠ df.size) :
    (compareFiles l d Direction.bidirectional cfg).filter (byRel rel) = [] ∧
    (conflictInvocations l d Direction.bidirectional).filter (fun x => x.1 == rel) = [] := by
  have hsame : isSameFile lf df = false := by simp [isSameFile, hs]
  constructor
  · rw [compareFiles_filter_bidi]
    simp [bidiAt, bidiPath, hl, hd, hsame, hm]
  · rw [conflictInvocations_filter_bidi]
    simp [bidiInvsAt, bidiInvs, hl, hd, hsame, hm]

/-- Witness for C10 at concrete records with equal mtime and unequal
size: nothing is emitted and no resolver runs. -/
theorem claim_equal_mtime_diff_size_skip_witness :
    (compareFiles [⟨"a", 1, 100, "la"⟩] [⟨"a", 2, 100, "da"⟩]
        Direction.bidirectional ⟨none, none⟩).filter (byRel "a") = [] ∧
    (conflictInvocations [⟨"a", 1, 100, "la"⟩] [⟨"a", 2, 100, "da"⟩]
        Direction.bidirectional).filter (fun x => x.1 == "a") = [] :=
  claim_equal_mtime_diff_size_skip [⟨"a", 1, 100, "la"⟩] [⟨"a", 2, 100, "da"⟩]
    ⟨none, none⟩ "a" ⟨"a", 1, 100, "la"⟩ ⟨"a", 2, 100, "da"⟩
    (by decide) (by decide) (by decide) (by decide)

/-- The relative paths of the upload operations of a list, in order. -/
def uploadPaths (ops : List Operation) : List String :=
  ops.filterMap (fun o =>
    match o.op with
    | OpKind.upload => some o.file.rel_path
    | OpKind.download => none)

/-- The relative paths of the download operations of a list, in order. -/
def downloadPaths (ops : List Operation) : List String :=
  ops.filterMap (fun o =>
    match o.op with
    | OpKind.upload => none
    | OpKind.download => some o.file.rel_path)

theorem uploadPaths_pushAt_eq_downloadPaths_pullAt (L R : List FileRec) (k : String) :
    uploadPaths (pushAt L R k) = downloadPaths (pullAt R L k) := by
  unfold pushAt pullAt
  cases hL : dictGet L k with
  | none => rfl
  | some lf =>
    cases hR : dictGet R k with
    | none => rfl
    | some rf =>
      simp only [pushPath, pullPath]
      rw [isSameFile_symm rf lf]
      by_cases hsame : isSameFile lf rf = true
      · rw [if_pos hsame, if_pos hsame]
        rfl
      · rw [Bool.not_eq_true] at hsame
        rw [hsame]
        simp only [Bool.false_eq_true, if_false]
        by_cases hlt : rf.mtime < lf.mtime
        · rw [if_pos hlt, if_pos hlt]
          rfl
        · rw [if_neg hlt, if_neg hlt]
          rfl

/-- C6: for fixed inventories `L`, `R`, the relative paths uploaded by
`local_to_device` over `(local=L, device=R)` are exactly the relative
paths downloaded by `device_to_local` over `(local=R, device=L)` —
indeed the very same list — and vice versa. -/
theorem claim_push_pull_symmetry (L R : List FileRec) (cfgA cfgB : ConflictConfig) :
    uploadPaths (compareFiles L R Direction.local_to_device cfgA) =
      downloadPaths (compareFiles R L Direction.device_to_local cfgB) ∧
    downloadPaths (compareFiles R L Direction.device_to_local cfgB) =
      uploadPaths (compareFiles L R Direction.local_to_device cfgA) := by
  have h : uploadPaths (compareFiles L R Direction.local_to_device cfgA) =
      downloadPaths (compareFiles R L Direction.device_to_local cfgB) := by
    show uploadPaths ((dictKeysList L).flatMap (pushAt L R)) =
      downloadPaths ((dictKeysList L).flatMap (pullAt R L))
    unfold uploadPaths downloadPaths
    rw [List.filterMap_flatMap, List.filterMap_flatMap]
    refine congrArg _ (funext fun k => ?_)
    exact uploadPaths_pushAt_eq_downloadPaths_pullAt L R k
  exact ⟨h, h.symm⟩

theorem collectDeviceFiles_filter_isSome (dp : String) (entries : List DirEntry)
    (inc exc : List String) (thr : Nat) (hook : Option (FileRec → Bool)) :
    collectDeviceFiles dp entries inc exc thr hook =
      collectDeviceFiles dp (entries.filter (fun e => e.mtime.isSome)) inc exc thr hook := by
  induction entries with
  | nil => rfl
  | cons e rest ih =>
    simp only [List.filter_cons]
    cases he : e.mtime with
    | none =>
      simp only [he, Option.isSome_none, Bool.false_eq_true, if_false]
      by_cases hd : e.is_dir = true <;>
        simp only [collectDeviceFiles, he, hd, if_true, Bool.false_eq_true, if_false] <;>
        exact ih
    | some m =>
      simp only [he, Option.isSome_some, if_true]
      by_cases hd : e.is_dir = true
      · simp only [collectDeviceFiles, hd, if_true]
        exact ih
      · simp only [collectDeviceFiles, hd, Bool.false_eq_true, if_false, he]
        split_ifs <;> try exact ih
        all_goals (cases hook <;> simp only [])
        · rw [ih]
        · split_ifs <;> rw [ih]

/-- C9: entries of the shallow device listing whose timestamp failed
to parse (`mtime = None`) are excluded from the remote inventory
before any other filtering (the collection over a listing equals the
collection over the listing with those entries removed, so every
inventory record carries a numeric mtime); consequently, at a concrete
input, an unparsable remote file is treated as absent and push
direction uploads over it. -/
theorem claim_unparsable_mtime_excluded :
    (∀ (dp : String) (entries : List DirEntry) (inc exc : List String)
        (thr : Nat) (hook : Option (FileRec → Bool)),
      collectDeviceFiles dp entries inc exc thr hook =
        collectDeviceFiles dp (entries.filter (fun e => e.mtime.isSome)) inc exc thr hook) ∧
    collectDeviceFiles "/dev" [⟨"a.txt", false, 100, none⟩] [] [] 0 none = [] ∧
    compareFiles [⟨"a.txt", 120, 500, "/l/a.txt"⟩]
        (collectDeviceFiles "/dev" [⟨"a.txt", false, 100, none⟩] [] [] 0 none)
        Direction.local_to_device ⟨none, none⟩ =
      [uploadOp ⟨"a.txt", 120, 500, "/l/a.txt"⟩] :=
  ⟨collectDeviceFiles_filter_isSome, by decide, by decide⟩

/-! ## Executor lemmas -/

theorem runAll_trace (ops : List Operation) (total : Nat) (result : Nat → Bool)
    (start : Nat) (stats : Stats) :
    (runAll ops total result start stats).2 = traceShape ops total start := by
  induction ops generalizing start stats with
  | nil => rfl
  | cons o rest ih =>
    simp only [runAll, traceShape]
    rw [ih]

theorem attempt_lt_of_mem_runAll {ops : List Operation} {total : Nat}
    {result : Nat → Bool} {start : Nat} {stats : Stats} {j : Nat}
    (h : Event.attempt j ∈ (runAll ops total result start stats).2) :
    j < start + ops.length := by
  induction ops generalizing start stats with
  | nil => simp [runAll] at h
  | cons o rest ih =>
    simp only [runAll, List.mem_cons] at h
    rcases h with h | h | h
    · simp at h
    · simp only [Event.attempt.injEq] at h
      subst h
      simp only [List.length_cons]
      omega
    · have := ih h
      simp only [List.length_cons]
      omega

theorem runOps_take_of_stop (ops : List Operation) (total : Nat)
    (stop result : Nat → Bool) (start : Nat) (stats : Stats) (m : Nat)
    (hfalse : ∀ j, j < m → stop (start + j) = false)
    (hstop : stop (start + m) = true) :
    runOps ops total stop result start stats =
      runAll (ops.take m) total result start stats := by
  induction ops generalizing start stats m with
  | nil => simp [runOps, runAll]
  | cons o rest ih =>
    cases m with
    | zero =>
      have h0 : stop start = true := by simpa using hstop
      simp [runOps, runAll, h0]
    | succ m' =>
      have h0 : stop start = false := by simpa using hfalse 0 (Nat.succ_pos m')
      simp only [runOps, runAll, List.take_succ_cons, h0, Bool.false_eq_true, if_false]
      rw [ih (start + 1) (applyResult stats o (result start)) m'
        (fun j hj => by
          have hf := hfalse (j + 1) (Nat.succ_lt_succ hj)
          have e : start + 1 + j = start + (j + 1) := by omega
          rw [e]
          exact hf)
        (by
          have e : start + 1 + m' = start + (m' + 1) := by omega
          rw [e]
          exact hstop)]

theorem runOps_exists_take (ops : List Operation) (total : Nat)
    (stop result : Nat → Bool) (start : Nat) (stats : Stats) :
    ∃ m, m ≤ ops.length ∧
      runOps ops total stop result start stats =
        runAll (ops.take m) total result start stats := by
  induction ops generalizing start stats with
  | nil => exact ⟨0, Nat.le_refl 0, rfl⟩
  | cons o rest ih =>
    by_cases h0 : stop start = true
    · refine ⟨0, Nat.zero_le _, ?_⟩
      simp [runOps, runAll, h0]
    · have h0' : stop start = false := by
        revert h0
        cases stop start <;> simp
      obtain ⟨m, hm, heq⟩ := ih (start + 1) (applyResult stats o (result start))
      refine ⟨m + 1, Nat.succ_le_succ hm, ?_⟩
      simp only [runOps, runAll, List.take_succ_cons, h0', Bool.false_eq_true, if_false]
      rw [heq]

theorem progressIndices_traceShape (ops : List Operation) (total start : Nat) :
    progressIndices (traceShape ops total start) = List.range' start ops.length := by
  induction ops generalizing start with
  | nil => rfl
  | cons o rest ih =>
    simp only [traceShape, progressIndices, List.filterMap_cons, List.length_cons,
      List.range'_succ]
    rw [← progressIndices, ih]

/-- C7: cancellation is cooperative and checked only between
operations: if the stop flag reads true at index `i` (and is sticky),
the run executes exactly some prefix of at most `i` operations — so
the stats contributions of every completed operation are kept and the
run still returns stats — and no operation at index `i` or later is
attempted. -/
theorem claim_cooperative_cancellation (ops : List Operation) (total : Nat)
    (stop result : Nat → Bool) (stats0 : Stats) (i : Nat)
    (hmono : ∀ j k, j ≤ k → stop j = true → stop k = true)
    (hstop : stop i = true) :
    ∃ m, m ≤ i ∧
      runOps ops total stop result 0 stats0 =
        runAll (ops.take m) total result 0 stats0 ∧
      ∀ j, i ≤ j →
        Event.attempt j ∉ (runOps ops total stop result 0 stats0).2 := by
  have hex : ∃ n, stop n = true := ⟨i, hstop⟩
  have hmle : Nat.find hex ≤ i := Nat.find_min' hex hstop
  have hfalse : ∀ j, j < Nat.find hex → stop j = false := by
    intro j hj
    have hne := Nat.find_min hex hj
    revert hne
    cases stop j <;> simp
  have heq := runOps_take_of_stop ops total stop result 0 stats0 (Nat.find hex)
    (fun j hj => by simpa using hfalse j hj)
    (by simpa using Nat.find_spec hex)
  refine ⟨Nat.find hex, hmle, heq, ?_⟩
  intro j hij hmem
  rw [heq] at hmem
  have hlt := attempt_lt_of_mem_runAll hmem
  have hlen : (ops.take (Nat.find hex)).length ≤ Nat.find hex := by
    rw [List.length_take]
    exact Nat.min_le_left _ _
  omega

/-- Witness for C7: with the flag already set at index 0, the single
queued operation is never attempted and the loop returns at once. -/
theorem claim_cooperative_cancellation_witness :
    ∃ m, m ≤ 0 ∧
      runOps [uploadOp ⟨"a", 1, 2, "la"⟩] 1 (fun _ => true) (fun _ => true) 0
          ⟨0, 0, 0, 0⟩ =
        runAll ([uploadOp ⟨"a", 1, 2, "la"⟩].take m) 1 (fun _ => true) 0
          ⟨0, 0, 0, 0⟩ ∧
      ∀ j, 0 ≤ j →
        Event.attempt j ∉ (runOps [uploadOp ⟨"a", 1, 2, "la"⟩] 1 (fun _ => true)
          (fun _ => true) 0 ⟨0, 0, 0, 0⟩).2 :=
  claim_cooperative_cancellation [uploadOp ⟨"a", 1, 2, "la"⟩] 1 (fun _ => true)
    (fun _ => true) ⟨0, 0, 0, 0⟩ 0 (fun _ _ _ h => h) rfl

/-- C8 counterexample: at a concrete run of one operation the trace is
the progress callback first and the attempt second, so there are no
positions placing the attempt of item 0 strictly before its progress
callback — the callback is not invoked after the item completes. -/
theorem claim_progress_after_item_refuted :
    (runOps [uploadOp ⟨"a.txt", 1, 2, "la"⟩] 1 (fun _ => false) (fun _ => true) 0
        ⟨0, 0, 0, 0⟩).2 =
      [Event.progress "upload a.txt" 0 1, Event.attempt 0] ∧
    ¬ ∃ k₁ k₂ : Fin (runOps [uploadOp ⟨"a.txt", 1, 2, "la"⟩] 1 (fun _ => false)
        (fun _ => true) 0 ⟨0, 0, 0, 0⟩).2.length,
      k₁ < k₂ ∧
      (runOps [uploadOp ⟨"a.txt", 1, 2, "la"⟩] 1 (fun _ => false) (fun _ => true) 0
          ⟨0, 0, 0, 0⟩).2.get k₁ = Event.attempt 0 ∧
      (runOps [uploadOp ⟨"a.txt", 1, 2, "la"⟩] 1 (fun _ => false) (fun _ => true) 0
          ⟨0, 0, 0, 0⟩).2.get k₂ = Event.progress "upload a.txt" 0 1 := by
  constructor
  · rfl
  · decide

/-- C8 amended: for every run the executor processes some prefix of
the operation list, and for each processed item the progress callback
is delivered immediately before the item is attempted — with the
description string, the 0-based index and the total count, regardless
of whether the attempt will succeed or fail — and the reported indices
are exactly `0, 1, 2, …`, strictly increasing. -/
theorem claim_progress_callback_order (ops : List Operation) (total : Nat)
    (stop result : Nat → Bool) (stats0 : Stats) :
    ∃ m, m ≤ ops.length ∧
      (runOps ops total stop result 0 stats0).2 = traceShape (ops.take m) total 0 ∧
      progressIndices ((runOps ops total stop result 0 stats0).2) =
        List.range' 0 m := by
  obtain ⟨m, hm, heq⟩ := runOps_exists_take ops total stop result 0 stats0
  refine ⟨m, hm, ?_, ?_⟩
  · rw [heq, runAll_trace]
  · rw [heq, runAll_trace, progressIndices_traceShape]
    congr 1
    rw [List.length_take]
    exact Nat.min_eq_left hm

/-- A concrete run whose plugin file-filter hook raises on the one
local candidate (which survives the built-in time and extension
filters). -/
def hookFailRun : SyncRun :=
  ⟨[⟨"a.txt", "a.txt", "/l/a.txt", 100, 5⟩], [], "/dev", [], [], 0,
    Direction.local_to_device, some (fun _ => Except.error "boom"),
    ⟨none, none⟩, none, fun _ => false, fun _ => true⟩

/-- A concrete run in which collection, comparison and execution all
succeed and the `on_sync_end` hook raises. -/
def endFailRun : SyncRun :=
  ⟨[], [], "/dev", [], [], 0, Direction.local_to_device, none, ⟨none, none⟩,
    some (fun _ => Except.error "end boom"), fun _ => false, fun _ => true⟩

/-- C3 counterexample: a failing file-filter hook is not replaced by
its accept default — the exception reaches the outer handler of
`sync`, which re-raises, so the run aborts with the hook's error and
does not return the stats (`upload = 1`) it would have produced had
the hook been treated as accepting. -/
theorem claim_hook_failure_tolerated_refuted :
    syncE hookFailRun = Except.error "boom" ∧
    syncE hookFailRun ≠ Except.ok ⟨1, 0, 0, 0⟩ := by
  constructor
  · rfl
  · intro h
    exact Except.noConfusion ((rfl : syncE hookFailRun = Except.error "boom") ▸ h)

/-- C3 amended: a failure raised inside the file-filter hook (during
either collection), the conflict hook (during comparison), or the
`on_sync_end` hook propagates out of `sync`: the outer handler logs
it, notifies `on_sync_error`, and re-raises, so the run aborts with
that error and no stats are returned. -/
theorem claim_hook_failure_aborts (r : SyncRun) (e : String) :
    (collectLocalFilesE r.localCands r.include_ext r.exclude_ext r.threshold
        r.filterHook = Except.error e → syncE r = Except.error e) ∧
    (∀ lfs, collectLocalFilesE r.localCands r.include_ext r.exclude_ext r.threshold
        r.filterHook = Except.ok lfs →
      collectDeviceFilesE r.device_path r.deviceEntries r.include_ext r.exclude_ext
        r.threshold r.filterHook = Except.error e →
      syncE r = Except.error e) ∧
    (∀ lfs dfs, collectLocalFilesE r.localCands r.include_ext r.exclude_ext r.threshold
        r.filterHook = Except.ok lfs →
      collectDeviceFilesE r.device_path r.deviceEntries r.include_ext r.exclude_ext
        r.threshold r.filterHook = Except.ok dfs →
      compareFilesE lfs dfs r.direction r.conflictCfg = Except.error e →
      syncE r = Except.error e) ∧
    (∀ lfs dfs ops hend, collectLocalFilesE r.localCands r.include_ext r.exclude_ext
        r.threshold r.filterHook = Except.ok lfs →
      collectDeviceFilesE r.device_path r.deviceEntries r.include_ext r.exclude_ext
        r.threshold r.filterHook = Except.ok dfs →
      compareFilesE lfs dfs r.direction r.conflictCfg = Except.ok ops →
      r.endHook = some hend →
      hend ((runOps ops ops.length r.stop r.result 0 ⟨0, 0, 0, 0⟩).1) =
        Except.error e →
      syncE r = Except.error e) := by
  refine ⟨?_, ?_, ?_, ?_⟩
  · intro hc
    simp only [syncE, hc]
  · intro lfs hc hd
    simp only [syncE, hc, hd]
  · intro lfs dfs hc hd hcmp
    simp only [syncE, hc, hd, hcmp]
  · intro lfs dfs ops hend hc hd hcmp hk hhook
    simp only [syncE, hc, hd, hcmp, hk, hhook]

/-- Witness for the amended C3: a run whose `on_sync_end` hook raises
aborts with that error even though every earlier step succeeded. -/
theorem claim_hook_failure_aborts_witness :
    syncE endFailRun = Except.error "end boom" :=
  (claim_hook_failure_aborts endFailRun "end boom").2.2.2 [] [] []
    (fun _ => Except.error "end boom") rfl rfl rfl rfl rfl

/-! ## Idempotence of reconciliation -/

theorem push_ops_upload {l d : List FileRec} {cfg : ConflictConfig} {op : Operation}
    (h : op ∈ compareFiles l d Direction.local_to_device cfg) :
    op.op = OpKind.upload := by
  obtain ⟨p, hp, hop⟩ := List.mem_flatMap.mp h
  unfold pushAt at hop
  cases hl : dictGet l p with
  | none => rw [hl] at hop; simp at hop
  | some lf =>
    rw [hl] at hop
    rw [mem_pushPath_eq hop]
    rfl

theorem pull_ops_download {l d : List FileRec} {cfg : ConflictConfig} {op : Operation}
    (h : op ∈ compareFiles l d Direction.device_to_local cfg) :
    op.op = OpKind.download := by
  obtain ⟨p, hp, hop⟩ := List.mem_flatMap.mp h
  unfold pullAt at hop
  cases hd : dictGet d p with
  | none => rw [hd] at hop; simp at hop
  | some df =>
    rw [hd] at hop
    rw [mem_pullPath_eq hop]
    rfl

theorem push_idem_at (l d l' d' : List FileRec) (cfg : ConflictConfig)
    (hup : ∀ op ∈ compareFiles l d Direction.local_to_device cfg,
      op.op = OpKind.upload →
      ∃ df', dictGet d' op.file.rel_path = some df' ∧
        df'.size = op.file.size ∧ df'.mtime / 60 = op.file.mtime / 60)
    (hlkeep : ∀ rel, (∀ op ∈ compareFiles l d Direction.local_to_device cfg,
        ¬(op.op = OpKind.download ∧ op.file.rel_path = rel)) →
      dictGet l' rel = dictGet l rel)
    (hdkeep : ∀ rel, (∀ op ∈ compareFiles l d Direction.local_to_device cfg,
        ¬(op.op = OpKind.upload ∧ op.file.rel_path = rel)) →
      dictGet d' rel = dictGet d rel)
    (k : String) : pushAt l' d' k = [] := by
  have hnodl : ∀ rel, dictGet l' rel = dictGet l rel := by
    intro rel
    apply hlkeep
    rintro op hop ⟨hkind, -⟩
    have hu := push_ops_upload hop
    rw [hu] at hkind
    exact OpKind.noConfusion hkind
  cases hl' : dictGet l' k with
  | none =>
    unfold pushAt
    rw [hl']
  | some lf =>
    have hl : dictGet l k = some lf := by rw [← hnodl k]; exact hl'
    have hfilter := compareFiles_filter_push l d cfg k
    rcases pushAt_cases l d k with hB | ⟨lf0, hlf0, hB⟩
    · have hnoup : ∀ op ∈ compareFiles l d Direction.local_to_device cfg,
          ¬(op.op = OpKind.upload ∧ op.file.rel_path = k) := by
        rintro op hop ⟨-, hrel⟩
        have hmem : op ∈ (compareFiles l d Direction.local_to_device cfg).filter
            (byRel k) := List.mem_filter.mpr ⟨hop, by simp [byRel, hrel]⟩
        rw [hfilter, hB] at hmem
        simp at hmem
      have hd' : dictGet d' k = dictGet d k := hdkeep k hnoup
      unfold pushAt
      rw [hl', hd']
      have hPB : pushAt l d k = pushPath lf (dictGet d k) := by
        unfold pushAt
        rw [hl]
      show pushPath lf (dictGet d k) = []
      rw [← hPB]
      exact hB
    · have hlf : lf0 = lf := by
        rw [hl] at hlf0
        exact (Option.some.injEq _ _).mp hlf0.symm
      subst hlf
      have hrel : lf0.rel_path = k := dictGet_some_rel hlf0
      have hmem : uploadOp lf0 ∈ compareFiles l d Direction.local_to_device cfg := by
        have hmf : uploadOp lf0 ∈ (compareFiles l d Direction.local_to_device cfg).filter
            (byRel k) := by
          rw [hfilter, hB]
          exact List.mem_singleton_self _
        exact (List.mem_filter.mp hmf).1
      obtain ⟨df', hdf', hsz, hmin⟩ := hup _ hmem rfl
      simp only [uploadOp] at hdf' hsz hmin
      rw [hrel] at hdf'
      unfold pushAt
      rw [hl', hdf']
      have hsame := isSameFile_of_copy hsz hmin
      simp [pushPath, hsame]

theorem pull_idem_at (l d l' d' : List FileRec) (cfg : ConflictConfig)
    (hdown : ∀ op ∈ compareFiles l d Direction.device_to_local cfg,
      op.op = OpKind.download →
      ∃ lf', dictGet l' op.file.rel_path = some lf' ∧
        lf'.size = op.file.size ∧ lf'.mtime / 60 = op.file.mtime / 60)
    (hlkeep : ∀ rel, (∀ op ∈ compareFiles l d Direction.device_to_local cfg,
        ¬(op.op = OpKind.download ∧ op.file.rel_path = rel)) →
      dictGet l' rel = dictGet l rel)
    (hdkeep : ∀ rel, (∀ op ∈ compareFiles l d Direction.device_to_local cfg,
        ¬(op.op = OpKind.upload ∧ op.file.rel_path = rel)) →
      dictGet d' rel = dictGet d rel)
    (k : String) : pullAt l' d' k = [] := by
  have hnoup : ∀ rel, dictGet d' rel = dictGet d rel := by
    intro rel
    apply hdkeep
    rintro op hop ⟨hkind, -⟩
    have hu := pull_ops_download hop
    rw [hu] at hkind
    exact OpKind.noConfusion hkind
  cases hd' : dictGet d' k with
  | none =>
    unfold pullAt
    rw [hd']
  | some df =>
    have hd : dictGet d k = some df := by rw [← hnoup k]; exact hd'
    have hfilter := compareFiles_filter_pull l d cfg k
    rcases pullAt_cases l d k with hB | ⟨df0, hdf0, hB⟩
    · have hnodl : ∀ op ∈ compareFiles l d Direction.device_to_local cfg,
          ¬(op.op = OpKind.download ∧ op.file.rel_path = k) := by
        rintro op hop ⟨-, hrel⟩
        have hmem : op ∈ (compareFiles l d Direction.device_to_local cfg).filter
            (byRel k) := List.mem_filter.mpr ⟨hop, by simp [byRel, hrel]⟩
        rw [hfilter, hB] at hmem
        simp at hmem
      have hl' : dictGet l' k = dictGet l k := hlkeep k hnodl
      unfold pullAt
      rw [hd', hl']
      have hPB : pullAt l d k = pullPath (dictGet l k) df := by
        unfold pullAt
        rw [hd]
      show pullPath (dictGet l k) df = []
      rw [← hPB]
      exact hB
    · have hdf : df0 = df := by
        rw [hd] at hdf0
        exact (Option.some.injEq _ _).mp hdf0.symm
      subst hdf
      have hrel : df0.rel_path = k := dictGet_some_rel hdf0
      have hmem : downloadOp df0 ∈ compareFiles l d Direction.device_to_local cfg := by
        have hmf : downloadOp df0 ∈ (compareFiles l d Direction.device_to_local cfg).filter
            (byRel k) := by
          rw [hfilter, hB]
          exact List.mem_singleton_self _
        exact (List.mem_filter.mp hmf).1
      obtain ⟨lf', hlf', hsz, hmin⟩ := hdown _ hmem rfl
      simp only [downloadOp] at hlf' hsz hmin
      rw [hrel] at hlf'
      unfold pullAt
      rw [hd', hlf']
      have hsame : isSameFile lf' df0 = true :=
        (isSameFile_iff lf' df0).mpr ⟨hsz, hmin⟩
      simp [pullPath, hsame]

theorem bidi_idem_at (l d l' d' : List FileRec) (cfg : ConflictConfig)
    (hup : ∀ op ∈ compareFiles l d Direction.bidirectional cfg,
      op.op = OpKind.upload →
      ∃ df', dictGet d' op.file.rel_path = some df' ∧
        df'.size = op.file.size ∧ df'.mtime / 60 = op.file.mtime / 60)
    (hdown : ∀ op ∈ compareFiles l d Direction.bidirectional cfg,
      op.op = OpKind.download →
      ∃ lf', dictGet l' op.file.rel_path = some lf' ∧
        lf'.size = op.file.size ∧ lf'.mtime / 60 = op.file.mtime / 60)
    (hlkeep : ∀ rel, (∀ op ∈ compareFiles l d Direction.bidirectional cfg,
        ¬(op.op = OpKind.download ∧ op.file.rel_path = rel)) →
      dictGet l' rel = dictGet l rel)
    (hdkeep : ∀ rel, (∀ op ∈ compareFiles l d Direction.bidirectional cfg,
        ¬(op.op = OpKind.upload ∧ op.file.rel_path = rel)) →
      dictGet d' rel = dictGet d rel)
    (k : String) : bidiAt cfg l' d' k = [] := by
  have hfilter := compareFiles_filter_bidi l d cfg k
  rcases bidiAt_cases cfg l d k with hB | ⟨lf0, hlf0, hB⟩ | ⟨df0, hdf0, hB⟩
  · have hnone : ∀ op ∈ compareFiles l d Direction.bidirectional cfg,
        op.file.rel_path ≠ k := by
      intro op hop hrel
      have hmem : op ∈ (compareFiles l d Direction.bidirectional cfg).filter
          (byRel k) := List.mem_filter.mpr ⟨hop, by simp [byRel, hrel]⟩
      rw [hfilter, hB] at hmem
      simp at hmem
    have hl' := hlkeep k (fun op hop hc => hnone op hop hc.2)
    have hd' := hdkeep k (fun op hop hc => hnone op hop hc.2)
    unfold bidiAt
    rw [hl', hd']
    unfold bidiAt at hB
    exact hB
  · have honly : ∀ op ∈ compareFiles l d Direction.bidirectional cfg,
        op.file.rel_path = k → op = uploadOp lf0 := by
      intro op hop hrel
      have hmem : op ∈ (compareFiles l d Direction.bidirectional cfg).filter
          (byRel k) := List.mem_filter.mpr ⟨hop, by simp [byRel, hrel]⟩
      rw [hfilter, hB] at hmem
      simpa using hmem
    have hrel : lf0.rel_path = k := dictGet_some_rel hlf0
    have hmem : uploadOp lf0 ∈ compareFiles l d Direction.bidirectional cfg := by
      have hmf : uploadOp lf0 ∈ (compareFiles l d Direction.bidirectional cfg).filter
          (byRel k) := by
        rw [hfilter, hB]
        exact List.mem_singleton_self _
      exact (List.mem_filter.mp hmf).1
    obtain ⟨df', hdf', hsz, hmin⟩ := hup _ hmem rfl
    simp only [uploadOp] at hdf' hsz hmin
    rw [hrel] at hdf'
    have hnodl : ∀ op ∈ compareFiles l d Direction.bidirectional cfg,
        ¬(op.op = OpKind.download ∧ op.file.rel_path = k) := by
      rintro op hop ⟨hkind, hrelk⟩
      have he := honly op hop hrelk
      rw [he] at hkind
      simp [uploadOp] at hkind
    have hl' := hlkeep k hnodl
    unfold bidiAt
    rw [hl', hlf0, hdf']
    have hsame := isSameFile_of_copy hsz hmin
    simp [bidiPath, hsame]
  · have honly : ∀ op ∈ compareFiles l d Direction.bidirectional cfg,
        op.file.rel_path = k → op = downloadOp df0 := by
      intro op hop hrel
      have hmem : op ∈ (compareFiles l d Direction.bidirectional cfg).filter
          (byRel k) := List.mem_filter.mpr ⟨hop, by simp [byRel, hrel]⟩
      rw [hfilter, hB] at hmem
      simpa using hmem
    have hrel : df0.rel_path = k := dictGet_some_rel hdf0
    have hmem : downloadOp df0 ∈ compareFiles l d Direction.bidirectional cfg := by
      have hmf : downloadOp df0 ∈ (compareFiles l d Direction.bidirectional cfg).filter
          (byRel k) := by
        rw [hfilter, hB]
        exact List.mem_singleton_self _
      exact (List.mem_filter.mp hmf).1
    obtain ⟨lf', hlf', hsz, hmin⟩ := hdown _ hmem rfl
    simp only [downloadOp] at hlf' hsz hmin
    rw [hrel] at hlf'
    have hnoupk : ∀ op ∈ compareFiles l d Direction.bidirectional cfg,
        ¬(op.op = OpKind.upload ∧ op.file.rel_path = k) := by
      rintro op hop ⟨hkind, hrelk⟩
      have he := honly op hop hrelk
      rw [he] at hkind
      simp [downloadOp] at hkind
    have hd' := hdkeep k hnoupk
    unfold bidiAt
    rw [hd', hdf0, hlf']
    have hsame : isSameFile lf' df0 = true := (isSameFile_iff _ _).mpr ⟨hsz, hmin⟩
    simp [bidiPath, hsame]

/-- C5: reconciliation is idempotent in all three directions: if the
first run's operations are applied — each emitted operation makes the
destination side's record at that key equal in size and minute-floored
mtime to the source record, and every key without an emitted upload
(resp. download) keeps its device (resp. local) record — then a second
reconciliation over the updated inventories, with the same direction
and the same (deterministic) conflict configuration, emits no
operation. -/
theorem claim_reconciliation_idempotent (l d l' d' : List FileRec)
    (direction : Direction) (cfg : ConflictConfig)
    (hup : ∀ op ∈ compareFiles l d direction cfg, op.op = OpKind.upload →
      ∃ df', dictGet d' op.file.rel_path = some df' ∧
        df'.size = op.file.size ∧ df'.mtime / 60 = op.file.mtime / 60)
    (hdown : ∀ op ∈ compareFiles l d direction cfg, op.op = OpKind.download →
      ∃ lf', dictGet l' op.file.rel_path = some lf' ∧
        lf'.size = op.file.size ∧ lf'.mtime / 60 = op.file.mtime / 60)
    (hlkeep : ∀ rel, (∀ op ∈ compareFiles l d direction cfg,
        ¬(op.op = OpKind.download ∧ op.file.rel_path = rel)) →
      dictGet l' rel = dictGet l rel)
    (hdkeep : ∀ rel, (∀ op ∈ compareFiles l d direction cfg,
        ¬(op.op = OpKind.upload ∧ op.file.rel_path = rel)) →
      dictGet d' rel = dictGet d rel) :
    compareFiles l' d' direction cfg = [] := by
  cases direction with
  | local_to_device =>
    show (dictKeysList l').flatMap (pushAt l' d') = []
    rw [List.flatMap_eq_nil_iff]
    intro k _
    exact push_idem_at l d l' d' cfg hup hlkeep hdkeep k
  | device_to_local =>
    show (dictKeysList d').flatMap (pullAt l' d') = []
    rw [List.flatMap_eq_nil_iff]
    intro k _
    exact pull_idem_at l d l' d' cfg hdown hlkeep hdkeep k
  | bidirectional =>
    show (allKeys l' d').flatMap (bidiAt cfg l' d') = []
    rw [List.flatMap_eq_nil_iff]
    intro k _
    exact bidi_idem_at l d l' d' cfg hup hdown hlkeep hdkeep k

/-- Witness for C5: on empty inventories the first run emits nothing,
the application hypotheses hold trivially, and the second run emits
nothing. -/
theorem claim_reconciliation_idempotent_witness :
    compareFiles [] [] Direction.bidirectional ⟨none, none⟩ = [] :=
  claim_reconciliation_idempotent [] [] [] [] Direction.bidirectional ⟨none, none⟩
    (by intro op hop; simp [compareFiles, allKeys, dedupKeepFirst] at hop)
    (by intro op hop; simp [compareFiles, allKeys, dedupKeepFirst] at hop)
    (by intro rel _; rfl)
    (by intro rel _; rfl)
